import Mathlib

/-!
# Animation utilities: easing catalog, cubic-Bézier solver, animation controller

A shallow embedding of `scripts/animation-utils.js`.

* Numbers are modelled by an ordered field `K` (the rationals for evaluation, the
  reals for the statements); the functions that use `Math.cos`, `Math.sin`,
  `Math.sqrt` or a non-integer `Math.pow` live over `ℝ`.
* `Math.sqrt` is fallible: on a negative argument JavaScript yields `NaN`, which
  is modelled by `none`.
* The controller is a state-passing model: the registry `this.animations`, the
  frame scheduler of the host (`requestAnimationFrame` / `cancelAnimationFrame`)
  and a log of the user callbacks that were invoked. The user callbacks `onUpdate` and
  `onComplete` are observed through the log only: they are taken not to call back into
  the controller, as is the case for the callbacks the adapters of the source define.
* Arithmetic is exact: rounding and overflow of IEEE doubles are not modelled.
-/

namespace AnimationUtils

/-! ## Easing functions -/

namespace easings

section Algebraic

variable {K : Type} [LinearOrderedField K]

/-- Source: `linear: (t) => t` -/
def linear (t : K) : K := t

end Algebraic

end easings

namespace easings

end easings

namespace cubicBezier

variable {K : Type} [LinearOrderedField K]

/-- Source: `const cx = 3 * x1` -/
def cx (x1 : K) : K := 3 * x1

/-- Source: `const bx = 3 * (x2 - x1) - cx` -/
def bx (x1 x2 : K) : K := 3 * (x2 - x1) - cx x1

/-- Source: `const ax = 1 - cx - bx` -/
def ax (x1 x2 : K) : K := 1 - cx x1 - bx x1 x2

/-- Source: `const cy = 3 * y1` -/
def cy (y1 : K) : K := 3 * y1

/-- Source: `const by = 3 * (y2 - y1) - cy` -/
def by_ (y1 y2 : K) : K := 3 * (y2 - y1) - cy y1

/-- Source: `const ay = 1 - cy - by` -/
def ay (y1 y2 : K) : K := 1 - cy y1 - by_ y1 y2

/-- Source: `sampleCurveX(t) = ((ax * t + bx) * t + cx) * t` -/
def sampleCurveX (x1 x2 t : K) : K := ((ax x1 x2 * t + bx x1 x2) * t + cx x1) * t

/-- Source: `sampleCurveY(t) = ((ay * t + by) * t + cy) * t` -/
def sampleCurveY (y1 y2 t : K) : K := ((ay y1 y2 * t + by_ y1 y2) * t + cy y1) * t

/-- Source: `const error = sampleCurveX(t) - x` in the body of the loop of `solveCurveX`. -/
def solveCurveX.error (x1 x2 x t : K) : K := sampleCurveX x1 x2 t - x

/-- Source: `const dx = (3 * ax * t + 2 * bx) * t + cx` in the body of the loop of `solveCurveX`. -/
def solveCurveX.dx (x1 x2 t : K) : K := (3 * ax x1 x2 * t + 2 * bx x1 x2) * t + cx x1

/-- The `for (let i = 0; i < 8; i++)` loop of `solveCurveX`, with `fuel` iterations left,
the loop counter `i` and the current estimate `t`. It yields the value the function
returns together with the value of `i` when the loop was left: by the `return t` inside
the loop, by the `break`, or because the counter reached the cap. -/
def solveCurveX.loop (x1 x2 x : K) : Nat → Nat → K → K × Nat
  | 0, i, t => (t, i)
  | fuel + 1, i, t =>
    if |solveCurveX.error x1 x2 x t| < 1e-6 then (t, i)
    else if |solveCurveX.dx x1 x2 t| < 1e-6 then (t, i)
    else solveCurveX.loop x1 x2 x fuel (i + 1) (t - solveCurveX.error x1 x2 x t / solveCurveX.dx x1 x2 t)

/-- Source: `solveCurveX(x)`: Newton iteration seeded at `t = x`, at most 8 steps. -/
def solveCurveX (x1 x2 x : K) : K := (solveCurveX.loop x1 x2 x 8 0 x).1

end cubicBezier

/-- Source: `cubicBezier(x1, y1, x2, y2)` returns `(x) => sampleCurveY(solveCurveX(x))`. -/
def cubicBezier {K : Type} [LinearOrderedField K] (x1 y1 x2 y2 : K) : K → K :=
  fun x => cubicBezier.sampleCurveY y1 y2 (cubicBezier.solveCurveX x1 x2 x)

/-! ## A JavaScript `Map` as an insertion-ordered association list -/

namespace Map

variable {α β : Type} [DecidableEq α]

/-- Source: `m.get(k)`, with `undefined` as `none`. -/
def get : List (α × β) → α → Option β
  | [], _ => none
  | e :: m, k => if e.1 = k then some e.2 else get m k

/-- Source: `m.has(k)` -/
def has (m : List (α × β)) (k : α) : Bool := (get m k).isSome

/-- Source: `m.set(k, v)`: an existing key keeps its position, a new key is appended. -/
def set (m : List (α × β)) (k : α) (v : β) : List (α × β) :=
  if has m k then m.map (fun e => if e.1 = k then (k, v) else e) else m ++ [(k, v)]

/-- Source: `m.delete(k)` -/
def delete (m : List (α × β)) (k : α) : List (α × β) :=
  m.filter (fun e => decide (e.1 ≠ k))

end Map

/-! ## Animation controller -/

section Controller

variable {K : Type} [LinearOrderedField K]

/-- The `options` argument of `start`. A missing `duration` or `easing` is `none`;
the user callbacks are observed only through the log, which records whether each
is present. -/
structure Options (K : Type) where
  duration : Option K
  easing : Option (K → K)
  onUpdate : Bool
  onComplete : Bool

/-- The closure `animate` created by one call of `start`, with the variables it
captures. `inst` numbers the calls of `start`, so that two animations started under
the same id can be told apart. -/
structure Animate (K : Type) where
  inst : Nat
  id : String
  startTime : K
  duration : K
  easing : K → K
  onUpdate : Bool
  onComplete : Bool

/-- What the controller does to its caller: a call of `onUpdate(progress, rawProgress)`,
a call of `onComplete()`, or `resolve()` of the promise returned by `start`; each
tagged with the id and the call of `start` of the animation it belongs to. -/
inductive Event (K : Type) where
  | onUpdate (id : String) (inst : Nat) (progress rawProgress : K)
  | onComplete (id : String) (inst : Nat)
  | resolve (id : String) (inst : Nat)
  deriving DecidableEq

/-- The id of the animation an event belongs to. -/
def Event.id : Event K → String
  | .onUpdate a _ _ _ => a
  | .onComplete a _ => a
  | .resolve a _ => a

/-- The call of `start` an event belongs to. -/
def Event.inst : Event K → Nat
  | .onUpdate _ i _ _ => i
  | .onComplete _ i => i
  | .resolve _ i => i

/-- The controller together with its environment.
* `animations`: the registry `this.animations` (id ↦ frame id);
* `pending`: the callbacks the frame scheduler holds, by frame id;
* `nextFrame`: the next frame id `requestAnimationFrame` hands out;
* `cancelled`: the frame ids passed to `cancelAnimationFrame`, in order;
* `starts`: the number of calls of `start` so far;
* `log`: the callbacks invoked and promises resolved so far, in order. -/
structure World (K : Type) where
  animations : List (String × Nat)
  pending : List (Nat × Animate K)
  nextFrame : Nat
  cancelled : List Nat
  starts : Nat
  log : List (Event K)

/-- A fresh controller (`new AnimationController()`) in a scheduler with no frames. -/
def World.empty : World K :=
  { animations := [], pending := [], nextFrame := 0, cancelled := [], starts := 0, log := [] }

/-- Environment: `requestAnimationFrame(cb)` stores the callback under a fresh frame id
and returns that id. -/
def requestAnimationFrame (cb : Animate K) (w : World K) : Nat × World K :=
  (w.nextFrame,
    { w with pending := w.pending ++ [(w.nextFrame, cb)], nextFrame := w.nextFrame + 1 })

/-- Environment: `cancelAnimationFrame(frameId)` drops the callback stored under
`frameId`, if any. -/
def cancelAnimationFrame (frameId : Nat) (w : World K) : World K :=
  { w with pending := Map.delete w.pending frameId, cancelled := w.cancelled ++ [frameId] }

/-- Source: `AnimationController.cancel(id)` -/
def cancel (id : String) (w : World K) : World K :=
  if Map.has w.animations id then
    match Map.get w.animations id with
    | some frameId =>
      let w1 := cancelAnimationFrame frameId w
      { w1 with animations := Map.delete w1.animations id }
    | none => w
  else w

/-- Source: `AnimationController.isRunning(id)` -/
def isRunning (id : String) (w : World K) : Bool := Map.has w.animations id

/-- Source: `AnimationController.start(id, options)`; `now` is the value `performance.now()`
returns during the call. -/
def start (id : String) (options : Options K) (now : K) (w : World K) : World K :=
  let duration := options.duration.getD 1000
  let easing := options.easing.getD easings.linear
  let w1 := cancel id w
  let c : Animate K :=
    { inst := w1.starts, id := id, startTime := now, duration := duration, easing := easing,
      onUpdate := options.onUpdate, onComplete := options.onComplete }
  let r := requestAnimationFrame c { w1 with starts := w1.starts + 1 }
  { r.2 with animations := Map.set r.2.animations id r.1 }

end Controller

/-! ## Lemmas on the easing functions -/

section EasingLemmas

variable {K : Type} [LinearOrderedField K]

end EasingLemmas

namespace cubicBezier

section SolverLemmas

variable {K : Type} [LinearOrderedField K]

theorem loop_exit (x1 x2 x : K) (fuel : Nat) :
    ∀ (i : Nat) (t : K),
      |solveCurveX.error x1 x2 x (solveCurveX.loop x1 x2 x fuel i t).1| < 1e-6 ∨
      (|solveCurveX.dx x1 x2 (solveCurveX.loop x1 x2 x fuel i t).1| < 1e-6 ∧
        (solveCurveX.loop x1 x2 x fuel i t).2 < i + fuel) ∨
      (solveCurveX.loop x1 x2 x fuel i t).2 = i + fuel := by
  induction fuel with
  | zero => intro i t; right; right; rfl
  | succ fuel ih =>
    intro i t
    unfold solveCurveX.loop
    by_cases h1 : |solveCurveX.error x1 x2 x t| < 1e-6
    · rw [if_pos h1]; left; exact h1
    · rw [if_neg h1]
      by_cases h2 : |solveCurveX.dx x1 x2 t| < 1e-6
      · rw [if_pos h2]; right; left; exact ⟨h2, by omega⟩
      · rw [if_neg h2]
        rcases ih (i + 1) (t - solveCurveX.error x1 x2 x t / solveCurveX.dx x1 x2 t) with h | h | h
        · left; exact h
        · right; left; exact ⟨h.1, by omega⟩
        · right; right; rw [h]; omega

theorem error_linear (x t : K) : solveCurveX.error 0 1 x t = 3 * t ^ 2 - 2 * t ^ 3 - x := by
  simp only [solveCurveX.error, sampleCurveX, ax, bx, cx]; ring

theorem dx_linear (t : K) : solveCurveX.dx (0 : K) 1 t = 6 * t * (1 - t) := by
  simp only [solveCurveX.dx, ax, bx, cx]; ring

/-- The polynomial inequality behind the contraction of the Newton step. -/
theorem newton_key (t u : K) (ht0 : 0 < t) (ht : t ≤ 1 / 2) (hu0 : 0 ≤ u)
    (hv : 6 * (1 - t) * u ≤ t * (3 - 2 * t)) :
    4 * (u * (3 - 6 * t + 2 * u)) ≤ 6 * t * (1 - t) := by
  have hs : 0 < 1 - t := by linarith
  have hv0 : 0 ≤ 6 * (1 - t) * u := by positivity
  have hsq : (6 * (1 - t) * u) ^ 2 ≤ (t * (3 - 2 * t)) ^ 2 := pow_le_pow_left₀ hv0 hv 2
  have h36 : (0:K) ≤ 3 - 6 * t := by linarith
  have hlin : 6 * (1 - t) * (3 - 6 * t) * (6 * (1 - t) * u)
      ≤ 6 * (1 - t) * (3 - 6 * t) * (t * (3 - 2 * t)) :=
    mul_le_mul_of_nonneg_left hv (by positivity)
  have hpoly : 54 * t * (1 - t) ^ 3
      - (6 * (1 - t) * (3 - 6 * t) * (t * (3 - 2 * t)) + 2 * (t * (3 - 2 * t)) ^ 2)
      = 2 * t * (t * (9 - 15 * t + 5 * t ^ 2)) := by ring
  have hq : (0:K) ≤ 9 - 15 * t + 5 * t ^ 2 := by
    have := sq_nonneg t; linarith
  have hpos : 0 ≤ 2 * t * (t * (9 - 15 * t + 5 * t ^ 2)) := by positivity
  have e1 : 9 * (1 - t) ^ 2 * (4 * (u * (3 - 6 * t + 2 * u)))
      = 6 * (1 - t) * (3 - 6 * t) * (6 * (1 - t) * u) + 2 * (6 * (1 - t) * u) ^ 2 := by ring
  have e2 : 9 * (1 - t) ^ 2 * (6 * t * (1 - t)) = 54 * t * (1 - t) ^ 3 := by ring
  have h9 : 9 * (1 - t) ^ 2 * (4 * (u * (3 - 6 * t + 2 * u)))
      ≤ 9 * (1 - t) ^ 2 * (6 * t * (1 - t)) := by
    rw [e1, e2]; linarith
  exact le_of_mul_le_mul_left h9 (by positivity)

/-- One Newton step from `t` to `t - u`, `u = residual / slope`, to the right of the root
in the lower half: the estimate stays positive, stays to the right of the root, and the
residual shrinks by a factor 4. -/
theorem newton_core (x t u : K) (hx : 0 ≤ x) (ht0 : 0 < t) (ht : t ≤ 1 / 2)
    (hg : 0 ≤ 3 * t ^ 2 - 2 * t ^ 3 - x)
    (hmul : u * (6 * t * (1 - t)) = 3 * t ^ 2 - 2 * t ^ 3 - x) :
    0 < t - u ∧ t - u ≤ 1 / 2 ∧
    0 ≤ 3 * (t - u) ^ 2 - 2 * (t - u) ^ 3 - x ∧
    3 * (t - u) ^ 2 - 2 * (t - u) ^ 3 - x ≤ (3 * t ^ 2 - 2 * t ^ 3 - x) / 4 := by
  have hs : 0 < 1 - t := by linarith
  have hD : 0 < 6 * t * (1 - t) := by positivity
  have hu0 : 0 ≤ u := by
    by_contra hneg
    have : u * (6 * t * (1 - t)) < 0 := mul_neg_of_neg_of_pos (not_le.1 hneg) hD
    linarith
  have hres : 3 * (t - u) ^ 2 - 2 * (t - u) ^ 3 - x = u * (u * (3 - 6 * t + 2 * u)) := by
    have : 3 * (t - u) ^ 2 - 2 * (t - u) ^ 3 - x
        = (3 * t ^ 2 - 2 * t ^ 3 - x) - u * (6 * t * (1 - t))
          + u * (u * (3 - 6 * t + 2 * u)) := by ring
    rw [this, hmul]; ring
  have hv : 6 * (1 - t) * u ≤ t * (3 - 2 * t) := by
    have e : t * (6 * (1 - t) * u) = u * (6 * t * (1 - t)) := by ring
    have e2 : t * (t * (3 - 2 * t)) = 3 * t ^ 2 - 2 * t ^ 3 := by ring
    have h1 : t * (6 * (1 - t) * u) ≤ t * (t * (3 - 2 * t)) := by
      rw [e, e2, hmul]; linarith
    exact le_of_mul_le_mul_left h1 ht0
  have hut : u < t := by
    have h2 : t * (3 - 2 * t) < 6 * (1 - t) * t := by
      have : 6 * (1 - t) * t - t * (3 - 2 * t) = t * (3 - 4 * t) := by ring
      have : 0 < t * (3 - 4 * t) := mul_pos ht0 (by linarith)
      linarith
    exact lt_of_mul_lt_mul_left (lt_of_le_of_lt hv h2) (by linarith : (0:K) ≤ 6 * (1 - t))
  refine ⟨by linarith, by linarith, ?_, ?_⟩
  · rw [hres]
    have : 0 ≤ 3 - 6 * t + 2 * u := by linarith
    positivity
  · rw [hres, ← hmul]
    have := mul_le_mul_of_nonneg_left (newton_key t u ht0 ht hu0 hv) hu0
    linarith

/-- From an estimate to the right of the root in the lower half, the loop ends with a
residual below `1e-4` as soon as the residual is below `1e-4 * 4 ^ fuel`. -/
theorem loop_lower (x : K) (hx : 0 ≤ x) (fuel : Nat) :
    ∀ (i : Nat) (t : K), 0 < t → t ≤ 1 / 2 → 0 ≤ 3 * t ^ 2 - 2 * t ^ 3 - x →
      3 * t ^ 2 - 2 * t ^ 3 - x < 1e-4 * 4 ^ fuel →
      |solveCurveX.error 0 1 x (solveCurveX.loop 0 1 x fuel i t).1| < 1e-4 := by
  induction fuel with
  | zero =>
    intro i t _ _ hg hb
    show |solveCurveX.error 0 1 x t| < 1e-4
    rw [error_linear, abs_of_nonneg hg]
    simpa using hb
  | succ fuel ih =>
    intro i t ht0 ht hg hb
    unfold solveCurveX.loop
    by_cases h1 : |solveCurveX.error 0 1 x t| < 1e-6
    · rw [if_pos h1]
      exact lt_trans h1 (by norm_num)
    · rw [if_neg h1]
      by_cases h2 : |solveCurveX.dx (0 : K) 1 t| < 1e-6
      · rw [if_pos h2]
        show |solveCurveX.error 0 1 x t| < 1e-4
        rw [error_linear, abs_of_nonneg hg]
        rw [dx_linear, abs_of_nonneg (by nlinarith)] at h2
        have h3 : 3 * t < 1e-6 := by nlinarith
        have h4 : 3 * t ^ 2 ≤ 3 * t := by nlinarith
        have h5 : 0 ≤ 2 * t ^ 3 := by positivity
        have h6 : (1e-6 : K) < 1e-4 := by norm_num
        linarith
      · rw [if_neg h2]
        have hD : solveCurveX.dx (0 : K) 1 t ≠ 0 := by
          intro e; rw [e] at h2; exact h2 (by norm_num)
        have hmul : solveCurveX.error 0 1 x t / solveCurveX.dx 0 1 t * (6 * t * (1 - t))
            = 3 * t ^ 2 - 2 * t ^ 3 - x := by
          rw [← dx_linear, ← error_linear, div_mul_cancel₀ _ hD]
        obtain ⟨n1, n2, n3, n4⟩ := newton_core x t _ hx ht0 ht hg hmul
        refine ih (i + 1) _ n1 n2 n3 (lt_of_le_of_lt n4 ?_)
        have e4 : (1e-4 : K) * 4 ^ (fuel + 1) = 4 * (1e-4 * 4 ^ fuel) := by
          rw [pow_succ]; ring
        rw [e4] at hb
        linarith

/-- The symmetry `t ↦ 1 - t`, `x ↦ 1 - x` of the curve through `(0, 0)`, `(1, 1)`. -/
theorem loop_symm (x : K) (fuel : Nat) :
    ∀ (i : Nat) (t : K), solveCurveX.loop 0 1 (1 - x) fuel i (1 - t)
      = (1 - (solveCurveX.loop 0 1 x fuel i t).1, (solveCurveX.loop 0 1 x fuel i t).2) := by
  have he : ∀ t : K, solveCurveX.error 0 1 (1 - x) (1 - t) = - solveCurveX.error 0 1 x t := by
    intro t; rw [error_linear, error_linear]; ring
  have hd : ∀ t : K, solveCurveX.dx (0 : K) 1 (1 - t) = solveCurveX.dx 0 1 t := by
    intro t; rw [dx_linear, dx_linear]; ring
  induction fuel with
  | zero => intro i t; rfl
  | succ fuel ih =>
    intro i t
    unfold solveCurveX.loop
    rw [he, hd, abs_neg]
    by_cases h1 : |solveCurveX.error 0 1 x t| < 1e-6
    · rw [if_pos h1, if_pos h1]
    · rw [if_neg h1, if_neg h1]
      by_cases h2 : |solveCurveX.dx (0 : K) 1 t| < 1e-6
      · rw [if_pos h2, if_pos h2]
      · rw [if_neg h2, if_neg h2, ← ih]
        congr 1
        ring

/-- The solver on the lower half of the unit interval. -/
theorem solve_lower (x : K) (hx0 : 0 ≤ x) (hx : x ≤ 1 / 2) :
    |solveCurveX.error 0 1 x (solveCurveX 0 1 x)| < 1e-4 := by
  unfold solveCurveX solveCurveX.loop
  have hgx : solveCurveX.error 0 1 x x = -(x * (1 - x) * (1 - 2 * x)) := by
    rw [error_linear]; ring
  have hp : 0 ≤ x * (1 - x) * (1 - 2 * x) :=
    mul_nonneg (mul_nonneg hx0 (by linarith)) (by linarith)
  by_cases h1 : |solveCurveX.error 0 1 x x| < 1e-6
  · rw [if_pos h1]
    exact lt_trans h1 (by norm_num)
  · rw [if_neg h1]
    by_cases h2 : |solveCurveX.dx (0 : K) 1 x| < 1e-6
    · rw [if_pos h2]
      show |solveCurveX.error 0 1 x x| < 1e-4
      rw [hgx, abs_neg, abs_of_nonneg hp]
      rw [dx_linear, abs_of_nonneg (by nlinarith)] at h2
      have h3 : x * (1 - x) * (1 - 2 * x) ≤ x * (1 - x) :=
        mul_le_of_le_one_right (mul_nonneg hx0 (by linarith)) (by linarith)
      have h6 : (1e-6 : K) < 1e-4 := by norm_num
      have h7 : 0 ≤ x * (1 - x) := mul_nonneg hx0 (by linarith)
      have h8 : 6 * x * (1 - x) = 6 * (x * (1 - x)) := by ring
      rw [h8] at h2
      linarith
    · rw [if_neg h2]
      have hD : solveCurveX.dx (0 : K) 1 x ≠ 0 := by
        intro e; rw [e] at h2; exact h2 (by norm_num)
      have hstep : x - solveCurveX.error 0 1 x x / solveCurveX.dx 0 1 x = (1 + 4 * x) / 6 := by
        have : solveCurveX.error 0 1 x x / solveCurveX.dx 0 1 x = -((1 - 2 * x) / 6) := by
          rw [div_eq_iff hD, hgx, dx_linear]; ring
        rw [this]; ring
      rw [hstep]
      have hval : 3 * ((1 + 4 * x) / 6) ^ 2 - 2 * ((1 + 4 * x) / 6) ^ 3 - x
          = 2 * (1 - 2 * x) ^ 3 / 27 := by ring
      have h12 : (0:K) ≤ 1 - 2 * x := by linarith
      have hle : (1 - 2 * x) ^ 3 ≤ 1 := pow_le_one₀ h12 (by linarith)
      refine loop_lower x hx0 7 1 _ (by linarith) (by linarith) ?_ ?_
      · rw [hval]; positivity
      · rw [hval]
        have : (1e-4 : K) * 4 ^ 7 = 1.6384 := by norm_num
        rw [this]
        have : (2:K) * (1 - 2 * x) ^ 3 / 27 ≤ 2 / 27 := by linarith
        have : (2 : K) / 27 < 1.6384 := by norm_num
        linarith

end SolverLemmas

end cubicBezier

/-! ## Lemmas on association lists -/

namespace Map

variable {α β : Type} [DecidableEq α]

theorem get_cons (e : α × β) (m : List (α × β)) (k : α) :
    get (e :: m) k = if e.1 = k then some e.2 else get m k := rfl

theorem get_delete (m : List (α × β)) (k k' : α) :
    get (delete m k) k' = if k' = k then none else get m k' := by
  induction m with
  | nil => simp [get, delete]
  | cons e m ih =>
    unfold delete at ih ⊢
    by_cases c : e.1 = k
    · have : decide (e.1 ≠ k) = false := by simp [c]
      rw [List.filter_cons_of_neg (by simp [c]), ih, get_cons]
      by_cases c' : k' = k
      · simp [c']
      · have : ¬ e.1 = k' := fun h => c' (by rw [← h, c])
        simp [c', this]
    · rw [List.filter_cons_of_pos (by simp [c]), get_cons, get_cons, ih]
      by_cases c' : k' = k
      · have : ¬ e.1 = k' := fun h => c (by rw [h, c'])
        simp [c', this, c]
      · simp [c']

end Map

/-! ## Lemmas on the controller -/

set_option linter.unusedSectionVars false

section ControllerLemmas

variable {K : Type} [LinearOrderedField K]

theorem cancel_eq (id : String) (w : World K) :
    cancel id w =
      match Map.get w.animations id with
      | some f => { w with animations := Map.delete w.animations id,
                           pending := Map.delete w.pending f,
                           cancelled := w.cancelled ++ [f] }
      | none => w := by
  unfold cancel Map.has
  cases h : Map.get w.animations id <;> simp [cancelAnimationFrame]

theorem cancel_get_none (id : String) (w : World K) :
    Map.get (cancel id w).animations id = none := by
  rw [cancel_eq]
  cases hg : Map.get w.animations id with
  | none => exact hg
  | some f => show Map.get (Map.delete w.animations id) id = none; rw [Map.get_delete]; simp

end ControllerLemmas

/-! ## The claims -/

section Claims

open cubicBezier

variable {K : Type} [LinearOrderedField K]

/-- Counterexample for C5 as stated: for the control points `x1 = 1`, `x2 = 0` and
`x = 0.5001` the slope at the seed is `1.2e-7`, so the loop is left by `break` in its
first iteration (`i = 0`, not 8) and returns the seed, where the residual is about
`1e-4`, not below `1e-5`. -/
theorem solveCurveX_break_inaccurate :
    solveCurveX.loop (1 : ℚ) 0 (5001 / 10000) 8 0 (5001 / 10000) = (5001 / 10000, 0) ∧
    ¬ (|sampleCurveX (1 : ℚ) 0 (solveCurveX (1 : ℚ) 0 (5001 / 10000)) - 5001 / 10000| < 1e-5 ∨
        (solveCurveX.loop (1 : ℚ) 0 (5001 / 10000) 8 0 (5001 / 10000)).2 = 8) := by
  have e : solveCurveX.loop (1 : ℚ) 0 (5001 / 10000) 8 0 (5001 / 10000) = (5001 / 10000, 0) := by
    unfold solveCurveX.loop
    norm_num [solveCurveX.error, solveCurveX.dx, sampleCurveX, ax, bx, cx, abs_lt, abs_of_neg]
  refine ⟨e, ?_⟩
  rw [solveCurveX, e]
  norm_num [sampleCurveX, ax, bx, cx, abs_lt, abs_of_neg]

/-- Claim C5, amended. For all control points and every `x` the value `t` returned by
`solveCurveX(x)` satisfies `|sampleCurveX(t) - x| < 1e-6` (the loop returned), or the slope
`dx` at `t` is below `1e-6` in magnitude (the loop was left by `break` before the cap),
or the loop ran all 8 iterations. -/
theorem solveCurveX_exit (x1 x2 x : K) :
    |sampleCurveX x1 x2 (solveCurveX x1 x2 x) - x| < 1e-6 ∨
    (|solveCurveX.dx x1 x2 (solveCurveX x1 x2 x)| < 1e-6 ∧
      (solveCurveX.loop x1 x2 x 8 0 x).2 < 8) ∨
    (solveCurveX.loop x1 x2 x 8 0 x).2 = 8 := by
  have := loop_exit x1 x2 x 8 0 x
  simpa [solveCurveX, solveCurveX.error] using this

/-- Claim C6. `cubicBezier(0, 0, 1, 1)` reproduces `linear` on the unit interval within
`1e-4`. -/
theorem cubicBezier_linear (x : K) (h0 : 0 ≤ x) (h1 : x ≤ 1) :
    |cubicBezier 0 0 1 1 x - x| < 1e-4 := by
  have e : ∀ z : K, cubicBezier 0 0 1 1 z - z = solveCurveX.error 0 1 z (solveCurveX 0 1 z) := by
    intro z; rfl
  rw [e]
  by_cases hx : x ≤ 1 / 2
  · exact solve_lower x h0 hx
  · have hs := solve_lower (1 - x) (by linarith) (by linarith)
    have hsym := loop_symm (1 - x) 8 0 (1 - x)
    rw [sub_sub_cancel] at hsym
    have e2 : solveCurveX 0 1 x = 1 - solveCurveX 0 1 (1 - x) := by
      unfold solveCurveX; rw [hsym]
    rw [e2, error_linear]
    rw [error_linear] at hs
    have : 3 * (1 - solveCurveX 0 1 (1 - x)) ^ 2 - 2 * (1 - solveCurveX 0 1 (1 - x)) ^ 3 - x
        = -(3 * (solveCurveX 0 1 (1 - x)) ^ 2 - 2 * (solveCurveX 0 1 (1 - x)) ^ 3 - (1 - x)) := by
      ring
    rw [this, abs_neg]; exact hs

/-- Witness for C6 at `x = 0.3`. -/
theorem cubicBezier_linear_witness :
    (0 : ℚ) ≤ 3 / 10 ∧ (3 / 10 : ℚ) ≤ 1 ∧ |cubicBezier (0 : ℚ) 0 1 1 (3 / 10) - 3 / 10| < 1e-4 :=
  ⟨by norm_num, by norm_num, cubicBezier_linear (3 / 10) (by norm_num) (by norm_num)⟩

/-- Claim C9. `cancel(id)` on an id that is not registered changes nothing: the world is
the same, so no frame cancellation is requested, the registry is as it was and
`isRunning` is unchanged for every id. In every world `cancel(id)` twice is `cancel(id)`
once. -/
theorem cancel_absent_noop (w : World K) (id : String) (h : isRunning id w = false)
    (w' : World K) :
    cancel id w = w ∧ (cancel id w).cancelled = w.cancelled ∧
      (cancel id w).animations = w.animations ∧
      (∀ id', isRunning id' (cancel id w) = isRunning id' w) ∧
      cancel id (cancel id w') = cancel id w' := by
  have e : cancel id w = w := by
    unfold cancel; unfold isRunning at h; rw [h]; rfl
  refine ⟨e, by rw [e], by rw [e], fun _ => by rw [e], ?_⟩
  have hn := cancel_get_none id w'
  generalize cancel id w' = w2 at hn
  rw [cancel_eq, hn]

/-- Witness for C9: `cancel("x")` after `start("a")`. -/
theorem cancel_absent_noop_witness :
    isRunning "x" (start "a" ⟨some 1000, none, true, true⟩ 0 (World.empty : World ℚ)) = false ∧
      cancel "x" (start "a" ⟨some 1000, none, true, true⟩ 0 (World.empty : World ℚ)) =
        start "a" ⟨some 1000, none, true, true⟩ 0 (World.empty : World ℚ) :=
  ⟨by decide, (cancel_absent_noop _ "x" (by decide) (World.empty : World ℚ)).1⟩

end Claims

end AnimationUtils
